import Mathlib

/-!
Shallow embedding of the `coin_flip` Dojo contract
(`contracts/src/models.cairo` and `contracts/src/systems/actions.cairo`).

Contract addresses are modelled as `Nat` (opaque identifiers); the Cairo
machine integers `u8`, `u32`, `u64` are modelled as `Nat` with explicit
bounds where overflow matters.  Cairo's `+` on bounded integers panics on
overflow, and `try_into().unwrap()` panics when the value does not fit;
both panics are modelled as `Except` errors, alongside the
`assert(..., 'Invalid prediction')` failure.
-/

namespace CoinFlip

/-- `u32::MAX + 1`. -/
def U32_MOD : Nat := 4294967296

/-- `Player` model from `models.cairo`: per-address flip statistics,
keyed by `address`. -/
structure Player where
  address : Nat
  total_flips : Nat
  wins : Nat
  losses : Nat
deriving Repr, DecidableEq

/-- `Game` model from `models.cairo`: one record per flip, composite key
`(player, game_id)`. -/
structure Game where
  player : Nat
  game_id : Nat
  prediction : Nat
  outcome : Nat
  won : Bool
deriving Repr, DecidableEq

/-- `Flipped` event from `actions.cairo`. -/
structure Flipped where
  player : Nat
  game_id : Nat
  prediction : Nat
  outcome : Nat
  won : Bool
deriving Repr, DecidableEq

/-- The world's record store.  `players` models `world.read_model(addr)`,
which yields a zero-valued default record (with the queried key) for an
address never written; `games` keeps track of which `(player, game_id)`
keys hold a written record, so absence is observable. -/
structure WorldState where
  players : Nat → Player
  games : Nat → Nat → Option Game

/-- The world before any `flip` call: no Game record exists and every
address reads as the zero-valued default Player record. -/
def initState : WorldState :=
  { players := fun a => { address := a, total_flips := 0, wins := 0, losses := 0 },
    games := fun _ _ => none }

/-- The ways a `flip` invocation can panic in Cairo: the explicit
`assert(prediction == 0 || prediction == 1, 'Invalid prediction')`, the
`try_into().unwrap()` on `timestamp % 2`, and `u32` addition overflow. -/
inductive FlipError where
  | invalidPrediction
  | u8ConversionFailed
  | u32Overflow
deriving Repr, DecidableEq

/-- Cairo `u32` addition: panics (here: `none`) when the sum exceeds
`u32::MAX`. -/
def u32_add (a b : Nat) : Option Nat :=
  if a + b < U32_MOD then some (a + b) else none

/-- Cairo `TryInto` from `u64` to `u8`: succeeds exactly when the value
fits in a `u8`. -/
def u8_try_into (n : Nat) : Option Nat :=
  if n < 256 then some n else none

/-- `fn flip(ref self: ContractState, prediction: u8)` from
`actions.cairo`, with the execution context made explicit: `caller` is
`get_caller_address()` and `timestamp` is `get_block_timestamp()`.
Returns the updated world together with the single emitted `Flipped`
event, or the panic that aborted the call. -/
def flip (w : WorldState) (caller : Nat) (prediction : Nat) (timestamp : Nat) :
    Except FlipError (WorldState × Flipped) :=
  if prediction = 0 ∨ prediction = 1 then
    let player := w.players caller
    match u8_try_into (timestamp % 2) with
    | none => .error .u8ConversionFailed
    | some outcome =>
      let won : Bool := prediction == outcome
      match u32_add player.total_flips 1 with
      | none => .error .u32Overflow
      | some new_game_id =>
        let counters : Option (Nat × Nat) :=
          if won then
            match u32_add player.wins 1 with
            | some x => some (x, player.losses)
            | none => none
          else
            match u32_add player.losses 1 with
            | some x => some (player.wins, x)
            | none => none
        match counters with
        | none => .error .u32Overflow
        | some (wins2, losses2) =>
          let player2 : Player :=
            { address := caller, total_flips := new_game_id,
              wins := wins2, losses := losses2 }
          let game : Game :=
            { player := caller, game_id := new_game_id,
              prediction := prediction, outcome := outcome, won := won }
          let w2 : WorldState :=
            { players := fun a => if a = caller then player2 else w.players a,
              games := fun a g =>
                if a = caller ∧ g = new_game_id then some game else w.games a g }
          .ok (w2, { player := caller, game_id := new_game_id,
                     prediction := prediction, outcome := outcome, won := won })
  else
    .error .invalidPrediction

/-- A call to `flip`, as ordered by the sequencer: caller address,
prediction argument, block timestamp. -/
abbrev Call := Nat × Nat × Nat

/-- Run a list of `flip` calls from a state; `none` if any call panics. -/
def runCalls : WorldState → List Call → Option WorldState
  | w, [] => some w
  | w, (c, p, t) :: rest =>
    match flip w c p t with
    | .ok (w', _) => runCalls w' rest
    | .error _ => none

/-- Number of calls in a trace made by caller `p`. -/
def countBy (p : Nat) (calls : List Call) : Nat :=
  (calls.filter (fun c => c.1 = p)).length

/-- States reachable from the initial world by successful `flip` calls
(a panicking call leaves the state unchanged, so it adds no new state). -/
inductive Reachable : WorldState → Prop where
  | init : Reachable initState
  | step (w w' : WorldState) (c p t : Nat) (e : Flipped) :
      Reachable w → flip w c p t = .ok (w', e) → Reachable w'

/-- The fallback event used to extract the components of a successful
`flip` result. -/
def noEvent : Flipped :=
  { player := 0, game_id := 0, prediction := 0, outcome := 0, won := false }

/-- The world after a successful `flip` (the input world if it panicked). -/
def flipStateD (w : WorldState) (c p t : Nat) : WorldState :=
  ((flip w c p t).toOption.getD (w, noEvent)).1

/-- The event emitted by a successful `flip` (`noEvent` if it panicked). -/
def flipEventD (w : WorldState) (c p t : Nat) : Flipped :=
  ((flip w c p t).toOption.getD (w, noEvent)).2

end CoinFlip

namespace CoinFlip

theorem u8_try_into_mod2 (t : Nat) : u8_try_into (t % 2) = some (t % 2) := by
  have h : t % 2 < 2 := Nat.mod_lt _ (by decide)
  unfold u8_try_into
  rw [if_pos (by omega)]

/-- Full characterisation of a successful `flip`. -/
theorem flip_ok_inv {w : WorldState} {c p t : Nat} {w' : WorldState} {e : Flipped}
    (h : flip w c p t = .ok (w', e)) :
    (p = 0 ∨ p = 1) ∧
    (w.players c).total_flips + 1 < U32_MOD ∧
    e = { player := c, game_id := (w.players c).total_flips + 1,
          prediction := p, outcome := t % 2, won := p == t % 2 } ∧
    (∀ a, w'.players a = if a = c then
        { address := c, total_flips := (w.players c).total_flips + 1,
          wins := if p == t % 2 then (w.players c).wins + 1 else (w.players c).wins,
          losses := if p == t % 2 then (w.players c).losses else (w.players c).losses + 1 }
      else w.players a) ∧
    (∀ a g, w'.games a g = if a = c ∧ g = (w.players c).total_flips + 1 then
        some { player := c, game_id := (w.players c).total_flips + 1,
               prediction := p, outcome := t % 2, won := p == t % 2 }
      else w.games a g) := by
  unfold flip at h
  by_cases hp : p = 0 ∨ p = 1
  · simp only [if_pos hp, u8_try_into_mod2] at h
    unfold u32_add at h
    by_cases h1 : (w.players c).total_flips + 1 < U32_MOD
    · simp only [if_pos h1] at h
      by_cases hwon : (p == t % 2) = true
      · simp only [hwon, if_pos] at h
        by_cases h2 : (w.players c).wins + 1 < U32_MOD
        · simp only [if_pos h2] at h
          injection h with h
          injection h with hw he
          subst hw; subst he
          refine ⟨hp, h1, by simp [hwon], ?_, ?_⟩ <;> intros <;> simp [hwon]
        · simp only [if_neg h2] at h
          exact Except.noConfusion h
      · simp only [Bool.not_eq_true] at hwon
        simp only [hwon, Bool.false_eq_true, if_false] at h
        by_cases h2 : (w.players c).losses + 1 < U32_MOD
        · simp only [if_pos h2] at h
          injection h with h
          injection h with hw he
          subst hw; subst he
          refine ⟨hp, h1, by simp [hwon], ?_, ?_⟩ <;> intros <;> simp [hwon]
        · simp only [if_neg h2] at h
          exact Except.noConfusion h
    · simp only [if_neg h1] at h
      exact Except.noConfusion h
  · simp only [if_neg hp] at h
    exact Except.noConfusion h

/-- `flip` succeeds whenever the prediction is valid and the caller's
counters cannot overflow. -/
theorem flip_ok_of {w : WorldState} {c p t : Nat}
    (hp : p = 0 ∨ p = 1)
    (hinv : (w.players c).wins + (w.players c).losses = (w.players c).total_flips)
    (hb : (w.players c).total_flips + 1 < U32_MOD) :
    (flip w c p t).isOk = true := by
  have hw : (w.players c).wins + 1 < U32_MOD := by omega
  have hl : (w.players c).losses + 1 < U32_MOD := by omega
  unfold flip
  rw [if_pos hp, u8_try_into_mod2]
  by_cases hwon : (p == t % 2) = true
  · simp [u32_add, hb, hw, hwon, Except.isOk, Except.toBool]
  · simp [u32_add, hb, hl, hwon, Except.isOk, Except.toBool]

/-- The statistics invariant: `wins + losses = total_flips` for every
stored (or default) Player record. -/
def StatsInv (w : WorldState) : Prop :=
  ∀ a, (w.players a).wins + (w.players a).losses = (w.players a).total_flips

theorem statsInv_init : StatsInv initState := fun _ => rfl

theorem statsInv_flip {w w' : WorldState} {c p t : Nat} {e : Flipped}
    (h : flip w c p t = .ok (w', e)) (hw : StatsInv w) : StatsInv w' := by
  obtain ⟨hp, h1, he, hpl, hg⟩ := flip_ok_inv h
  intro a
  rw [hpl a]
  by_cases ha : a = c
  · subst ha
    have := hw a
    by_cases hwon : (p == t % 2) = true <;> simp [hwon] <;> omega
  · rw [if_neg ha]
    exact hw a

theorem statsInv_reachable {w : WorldState} (h : Reachable w) : StatsInv w := by
  induction h with
  | init => exact statsInv_init
  | step w w' c p t e hr hf ih => exact statsInv_flip hf ih

/-- The Game-record field invariant: every written record has a binary
prediction and outcome and `won = (prediction == outcome)`. -/
def GameInv (w : WorldState) : Prop :=
  ∀ a g gm, w.games a g = some gm →
    gm.won = (gm.prediction == gm.outcome) ∧
    (gm.outcome = 0 ∨ gm.outcome = 1) ∧
    (gm.prediction = 0 ∨ gm.prediction = 1)

theorem gameInv_init : GameInv initState := by
  intro a g gm h
  exact Option.noConfusion h

theorem gameInv_flip {w w' : WorldState} {c p t : Nat} {e : Flipped}
    (h : flip w c p t = .ok (w', e)) (hw : GameInv w) : GameInv w' := by
  obtain ⟨hp, h1, he, hpl, hg⟩ := flip_ok_inv h
  intro a g gm hsome
  rw [hg a g] at hsome
  by_cases hc : a = c ∧ g = (w.players c).total_flips + 1
  · rw [if_pos hc] at hsome
    injection hsome with hsome
    subst hsome
    exact ⟨rfl, Nat.mod_two_eq_zero_or_one t, hp⟩
  · rw [if_neg hc] at hsome
    exact hw a g gm hsome

theorem gameInv_reachable {w : WorldState} (h : Reachable w) : GameInv w := by
  induction h with
  | init => exact gameInv_init
  | step w w' c p t e hr hf ih => exact gameInv_flip hf ih

/-- The density invariant: the Game records of a player are exactly those
keyed `1 .. total_flips`. -/
def DenseInv (w : WorldState) : Prop :=
  ∀ a g, (w.games a g).isSome = decide (1 ≤ g ∧ g ≤ (w.players a).total_flips)

theorem denseInv_init : DenseInv initState := by
  intro a g
  have h0 : (initState.players a).total_flips = 0 := rfl
  have h1 : initState.games a g = none := rfl
  rw [h0, h1]
  have h : ¬(1 ≤ g ∧ g ≤ 0) := by omega
  rw [decide_eq_false h]
  rfl

theorem denseInv_flip {w w' : WorldState} {c p t : Nat} {e : Flipped}
    (h : flip w c p t = .ok (w', e)) (hw : DenseInv w) : DenseInv w' := by
  obtain ⟨hp, h1, he, hpl, hg⟩ := flip_ok_inv h
  intro a g
  rw [hg a g, hpl a]
  by_cases hc : a = c ∧ g = (w.players c).total_flips + 1
  · obtain ⟨hc1, hc2⟩ := hc
    subst hc1
    rw [if_pos ⟨rfl, hc2⟩, if_pos rfl]
    subst hc2
    simp
  · rw [if_neg hc]
    by_cases ha : a = c
    · subst ha
      have hgne : g ≠ (w.players a).total_flips + 1 := fun hh => hc ⟨rfl, hh⟩
      rw [if_pos rfl, hw a g]
      show decide (1 ≤ g ∧ g ≤ (w.players a).total_flips) =
        decide (1 ≤ g ∧ g ≤ (w.players a).total_flips + 1)
      exact decide_eq_decide.mpr (by omega)
    · rw [if_neg ha]
      exact hw a g

theorem denseInv_reachable {w : WorldState} (h : Reachable w) : DenseInv w := by
  induction h with
  | init => exact denseInv_init
  | step w w' c p t e hr hf ih => exact denseInv_flip hf ih

theorem countBy_cons (q c p t : Nat) (tl : List Call) :
    countBy q ((c, p, t) :: tl) = (if c = q then 1 else 0) + countBy q tl := by
  unfold countBy
  by_cases h : c = q <;> simp [List.filter, h, Nat.add_comm]

theorem countBy_append (q : Nat) (l1 l2 : List Call) :
    countBy q (l1 ++ l2) = countBy q l1 + countBy q l2 := by
  unfold countBy
  rw [List.filter_append, List.length_append]

/-- Running a trace of successful calls preserves the density invariant
and adds, for each player, one flip per call made by that player. -/
theorem runCalls_counts (calls : List Call) :
    ∀ (w w' : WorldState), runCalls w calls = some w' → DenseInv w →
      DenseInv w' ∧
      ∀ q, (w'.players q).total_flips = (w.players q).total_flips + countBy q calls := by
  induction calls with
  | nil =>
    intro w w' h hd
    injection h with h
    subst h
    exact ⟨hd, fun q => by simp [countBy]⟩
  | cons hd0 tl ih =>
    obtain ⟨c, p, t⟩ := hd0
    intro w w' h hdi
    unfold runCalls at h
    cases hf : flip w c p t with
    | error err =>
      rw [hf] at h
      exact Option.noConfusion h
    | ok res =>
      obtain ⟨w1, e⟩ := res
      rw [hf] at h
      obtain ⟨hd', htot⟩ := ih w1 w' h (denseInv_flip hf hdi)
      refine ⟨hd', fun q => ?_⟩
      rw [htot q, countBy_cons]
      obtain ⟨hp, h1, he, hpl, hg⟩ := flip_ok_inv hf
      rw [hpl q]
      by_cases hq : q = c
      · subst hq
        rw [if_pos rfl, if_pos rfl]
        show (w.players q).total_flips + 1 + countBy q tl =
          (w.players q).total_flips + (1 + countBy q tl)
        omega
      · rw [if_neg hq, if_neg (fun hh => hq hh.symm)]
        omega

/-- The world after one `flip(0)` by address 1 at timestamp 0. -/
def wA : WorldState := flipStateD initState 1 0 0

/-- The event emitted by that call. -/
def eA : Flipped := flipEventD initState 1 0 0

theorem flip_wA : flip initState 1 0 0 = .ok (wA, eA) := rfl

theorem reachable_wA : Reachable wA :=
  Reachable.step initState wA 1 0 0 eA Reachable.init flip_wA

/-- The Game record written by that call. -/
def gA : Game := (wA.games 1 1).getD { player := 0, game_id := 0, prediction := 0,
                                       outcome := 0, won := false }

/-- The world after a further `flip(1)` by address 2 at timestamp 0. -/
def wB : WorldState := flipStateD wA 2 1 0

/-- The event emitted by that second call. -/
def eB : Flipped := flipEventD wA 2 1 0

theorem flip_wB : flip wA 2 1 0 = .ok (wB, eB) := rfl

/-- A world in which address 1 already has `u32::MAX` recorded flips. -/
def maxedState : WorldState :=
  { players := fun a =>
      if a = 1 then { address := 1, total_flips := 4294967295, wins := 0, losses := 4294967295 }
      else { address := a, total_flips := 0, wins := 0, losses := 0 },
    games := fun _ _ => none }

/-- First trace state used in witnesses: one call by address 1. -/
def wD1 : WorldState := (runCalls initState [(1, 0, 0)]).getD initState

/-- Second trace state used in witnesses: two calls by address 1. -/
def wD2 : WorldState := (runCalls initState ([(1, 0, 0)] ++ [(1, 0, 1)])).getD initState

end CoinFlip

namespace CoinFlip

/-- C1: after a trace of `n` successful `flip` calls by identity `p`
(interleaved arbitrarily with calls by others), the stored Player record
for `p` has `total_flips = n` and the Game records of `p` are exactly
those keyed `(p, 1..n)` (no gaps, no duplicates); one further successful
call by `p` yields a new, distinct record keyed `(p, n+1)` that was
absent before, so consecutive calls never overwrite each other. -/
theorem spec_c1 (calls : List Call) (p pr t g : Nat) (w w2 : WorldState)
    (h : runCalls initState calls = some w)
    (h2 : runCalls initState (calls ++ [(p, pr, t)]) = some w2) :
    (w.players p).total_flips = countBy p calls ∧
    (w.games p g).isSome = decide (1 ≤ g ∧ g ≤ countBy p calls) ∧
    (w2.players p).total_flips = countBy p calls + 1 ∧
    w.games p (countBy p calls + 1) = none ∧
    (w2.games p (countBy p calls + 1)).isSome = true := by
  obtain ⟨hd1, ht1⟩ := runCalls_counts calls initState w h denseInv_init
  obtain ⟨hd2, ht2⟩ := runCalls_counts _ initState w2 h2 denseInv_init
  have h0 : (initState.players p).total_flips = 0 := rfl
  have e1 : (w.players p).total_flips = countBy p calls := by
    rw [ht1 p, h0]
    omega
  have hcnt : countBy p (calls ++ [(p, pr, t)]) = countBy p calls + 1 := by
    rw [countBy_append]
    have hone : countBy p [(p, pr, t)] = 1 := by simp [countBy, List.filter]
    omega
  have e2 : (w2.players p).total_flips = countBy p calls + 1 := by
    rw [ht2 p, h0, hcnt]
    omega
  refine ⟨e1, ?_, e2, ?_, ?_⟩
  · rw [hd1 p g, e1]
  · have hthis := hd1 p (countBy p calls + 1)
    rw [e1] at hthis
    rw [decide_eq_false (show ¬(1 ≤ countBy p calls + 1 ∧
        countBy p calls + 1 ≤ countBy p calls) by omega)] at hthis
    exact Option.not_isSome_iff_eq_none.mp (by rw [hthis]; simp)
  · have hthis := hd2 p (countBy p calls + 1)
    rw [e2] at hthis
    rw [hthis]
    exact decide_eq_true (by omega)

theorem spec_c1_witness :
    (wD1.players 1).total_flips = countBy 1 [(1, 0, 0)] ∧
    (wD1.games 1 1).isSome = decide (1 ≤ 1 ∧ 1 ≤ countBy 1 [(1, 0, 0)]) ∧
    (wD2.players 1).total_flips = countBy 1 [(1, 0, 0)] + 1 ∧
    wD1.games 1 (countBy 1 [(1, 0, 0)] + 1) = none ∧
    (wD2.games 1 (countBy 1 [(1, 0, 0)] + 1)).isSome = true :=
  spec_c1 [(1, 0, 0)] 1 0 1 1 wD1 wD2 rfl rfl

/-- C2: `wins + losses = total_flips` holds for every Player record in
every reachable world state, including the zero-valued default records. -/
theorem spec_c2 (w : WorldState) (h : Reachable w) (a : Nat) :
    (w.players a).wins + (w.players a).losses = (w.players a).total_flips :=
  statsInv_reachable h a

theorem spec_c2_witness :
    (wA.players 1).wins + (wA.players 1).losses = (wA.players 1).total_flips :=
  spec_c2 wA reachable_wA 1

/-- C3: a prediction outside `{0, 1}` makes `flip` fail with the
`Invalid prediction` assertion; the call returns no updated world and no
event, so no record of any identity changes and nothing is emitted. -/
theorem spec_c3 (w : WorldState) (c p t : Nat) (h0 : p ≠ 0) (h1 : p ≠ 1) :
    flip w c p t = .error .invalidPrediction := by
  unfold flip
  rw [if_neg (fun hh => hh.elim h0 h1)]

theorem spec_c3_witness : flip initState 1 2 0 = .error .invalidPrediction :=
  spec_c3 initState 1 2 0 (by decide) (by decide)

/-- C4: every Game record in a reachable world has
`won = (prediction == outcome)` with both `prediction` and `outcome`
binary; `outcome` is computed inside `flip`, never caller-supplied. -/
theorem spec_c4 (w : WorldState) (h : Reachable w) (a g : Nat) (gm : Game)
    (hg : w.games a g = some gm) :
    gm.won = (gm.prediction == gm.outcome) ∧
    (gm.outcome = 0 ∨ gm.outcome = 1) ∧
    (gm.prediction = 0 ∨ gm.prediction = 1) :=
  gameInv_reachable h a g gm hg

theorem spec_c4_witness :
    gA.won = (gA.prediction == gA.outcome) ∧
    (gA.outcome = 0 ∨ gA.outcome = 1) ∧
    (gA.prediction = 0 ∨ gA.prediction = 1) :=
  spec_c4 wA reachable_wA 1 1 gA rfl

/-- C5: every successful `flip` derives its outcome as the block
timestamp modulo 2, and wins exactly when the prediction equals that
value; in particular an even timestamp gives outcome 0, which a
prediction of 0 wins. -/
theorem spec_c5 (w : WorldState) (c p t : Nat) (w' : WorldState) (e : Flipped)
    (h : flip w c p t = .ok (w', e)) :
    e.outcome = t % 2 ∧ e.won = (p == t % 2) := by
  obtain ⟨hp, h1, he, hpl, hg⟩ := flip_ok_inv h
  subst he
  exact ⟨rfl, rfl⟩

theorem spec_c5_witness :
    eA.outcome = 0 % 2 ∧ eA.won = ((0 : Nat) == 0 % 2) :=
  spec_c5 initState 1 0 0 wA eA flip_wA

/-- C6: the single event returned by a successful `flip` carries exactly
the key and fields of the Game record written in that call; a rejected
call returns an error and hence no event (the result type carries the
iff). -/
theorem spec_c6 (w : WorldState) (c p t : Nat) (w' : WorldState) (e : Flipped)
    (h : flip w c p t = .ok (w', e)) :
    e.player = c ∧
    w'.games e.player e.game_id =
      some { player := e.player, game_id := e.game_id, prediction := e.prediction,
             outcome := e.outcome, won := e.won } := by
  obtain ⟨hp, h1, he, hpl, hg⟩ := flip_ok_inv h
  subst he
  refine ⟨rfl, ?_⟩
  show w'.games c ((w.players c).total_flips + 1) =
    some { player := c, game_id := (w.players c).total_flips + 1, prediction := p,
           outcome := t % 2, won := p == t % 2 }
  rw [hg c ((w.players c).total_flips + 1), if_pos ⟨rfl, rfl⟩]

theorem spec_c6_witness :
    eA.player = 1 ∧
    wA.games eA.player eA.game_id =
      some { player := eA.player, game_id := eA.game_id, prediction := eA.prediction,
             outcome := eA.outcome, won := eA.won } :=
  spec_c6 initState 1 0 0 wA eA flip_wA

/-- C7 counterexample: with a caller state holding `total_flips =
u32::MAX`, a valid prediction still makes `flip` panic on the Cairo
`u32` addition `player.total_flips + 1`, so `InvalidArgument` is not the
only failure and `flip` does not succeed for every caller state. -/
theorem spec_c7_cex : flip maxedState 1 0 0 = .error .u32Overflow := rfl

/-- C7 (amended): for every caller state whose Player record satisfies
`wins + losses = total_flips` with `total_flips + 1` below `2^32`, and
every prediction in `{0, 1}`, the `flip` call succeeds. -/
theorem spec_c7 (w : WorldState) (c p t : Nat)
    (hp : p = 0 ∨ p = 1)
    (hinv : (w.players c).wins + (w.players c).losses = (w.players c).total_flips)
    (hb : (w.players c).total_flips + 1 < U32_MOD) :
    (flip w c p t).isOk = true :=
  flip_ok_of hp hinv hb

theorem spec_c7_witness : (flip initState 1 0 5).isOk = true :=
  spec_c7 initState 1 0 5 (Or.inl rfl) rfl (by decide)

/-- C8: a successful `flip` by `c` leaves the Player record of every
other address and the Game record at every key other than the freshly
written `(c, game_id)` unchanged — in particular previously written Game
records are never modified. -/
theorem spec_c8 (w : WorldState) (c p t q g r : Nat) (w' : WorldState) (e : Flipped)
    (h : flip w c p t = .ok (w', e))
    (hqg : ¬(q = c ∧ g = e.game_id)) (hr : r ≠ c) :
    w'.games q g = w.games q g ∧ w'.players r = w.players r := by
  obtain ⟨hp, h1, he, hpl, hg⟩ := flip_ok_inv h
  have hgid : e.game_id = (w.players c).total_flips + 1 := by rw [he]
  rw [hgid] at hqg
  refine ⟨?_, ?_⟩
  · rw [hg q g, if_neg hqg]
  · rw [hpl r, if_neg hr]

theorem spec_c8_witness :
    wA.games 1 2 = initState.games 1 2 ∧ wA.players 2 = initState.players 2 :=
  spec_c8 initState 1 0 0 1 2 2 wA eA flip_wA (by decide) (by decide)

/-- C9: the outcome of a `flip` depends only on the block timestamp: any
two successful calls at the same timestamp produce the same outcome,
whatever the world states, callers and predictions. -/
theorem spec_c9 (w1 w2 : WorldState) (c1 c2 p1 p2 t : Nat)
    (w1' w2' : WorldState) (e1 e2 : Flipped)
    (h1 : flip w1 c1 p1 t = .ok (w1', e1)) (h2 : flip w2 c2 p2 t = .ok (w2', e2)) :
    e1.outcome = e2.outcome := by
  obtain ⟨_, _, he1, _, _⟩ := flip_ok_inv h1
  obtain ⟨_, _, he2, _, _⟩ := flip_ok_inv h2
  rw [he1, he2]

theorem spec_c9_witness : eA.outcome = eB.outcome :=
  spec_c9 initState wA 1 2 0 1 0 wA wB eA eB flip_wA flip_wB

/-- C10: `timestamp % 2` always fits in a `u8`, so the
`try_into().unwrap()` in `flip` never takes its failure branch. -/
theorem spec_c10 (t : Nat) : u8_try_into (t % 2) = some (t % 2) :=
  u8_try_into_mod2 t

end CoinFlip
